import Mathlib

/-!
Verification of the JSON-query compiler of `nodejs-ijson-helpers`
(`src/services/query.js`, class `JsonQuery`) and of the connection
bootstrap guard (`src/services/baseDb.js`, class `BaseConnection`).

JavaScript values are modelled by the inductive type `JVal`; objects are
association lists of string keys (JS objects have unique, ordered keys).
Absent properties are modelled as `Option.none` at lookup sites, the
explicit JS `null` by the constructor `JVal.null`.  JS numbers are
modelled as integers, matching the wire shape of the inputs (pages,
limits) the code manipulates.

The external filter translator `JsonQuerySequelize.toQuery` (an adapter
that is not part of the two source files, and declared out of scope by
the design document) is an opaque parameter `t : JVal → JVal` throughout.
The model registry (result of the `this.models()` callback) is a plain
object, passed as an association list.
-/

inductive JVal where
  | null
  | bool (b : Bool)
  | num (n : Int)
  | str (s : String)
  | arr (elems : List JVal)
  | obj (fields : List (String × JVal))

/-- JS truthiness (`if (v)`).  Empty string, `0`, `false`, `null` are
falsy; every array and object (including `[]` and `\x7b\x7d`) is truthy. -/
def JVal.truthy : JVal → Bool
  | .null => false
  | .bool b => b
  | .num n => n != 0
  | .str s => s != ""
  | .arr _ => true
  | .obj _ => true

/-- Property lookup on an object field list; `none` models JS `undefined`. -/
def getField : List (String × JVal) → String → Option JVal
  | [], _ => none
  | (k, v) :: rest, key => if k = key then some v else getField rest key

/-- Property write on an object field list: replace in place, or append. -/
def setField : List (String × JVal) → String → JVal → List (String × JVal)
  | [], key, v => [(key, v)]
  | (k, w) :: rest, key, v =>
    if k = key then (k, v) :: rest else (k, w) :: setField rest key v

/-- `o?.k` — property read; non-objects yield `undefined` (`none`). -/
def JVal.get? : JVal → String → Option JVal
  | .obj f, k => getField f k
  | _, _ => none

/-- `o.k = v` — property write; writes to non-objects are dropped
(the code only ever writes to object-shaped query descriptors). -/
def JVal.set : JVal → String → JVal → JVal
  | .obj f, k, v => .obj (setField f k v)
  | w, _, _ => w

/-- The nullish-coalescing read `x ?? d`: `undefined` and `null` fall
through to the default. -/
def jsGetD : Option JVal → JVal → JVal
  | none, d => d
  | some .null, d => d
  | some v, _ => v

/-- Truthiness of a possibly-absent value (`undefined` is falsy). -/
def optTruthy : Option JVal → Bool
  | none => false
  | some v => v.truthy

/-- JS property-key coercion for `models[x]`: an absent value is the key
`"undefined"`; array/object keys never occur for the wire shapes used. -/
def propKey : Option JVal → String
  | none => "undefined"
  | some (.str s) => s
  | some (.num n) => toString n
  | some (.bool b) => cond b "true" "false"
  | some .null => "null"
  | some (.arr _) => ""
  | some (.obj _) => "[object Object]"

mutual

/-- Lodash `_.merge(dst, src)` on a single source value, given the current
destination value (`none` when the destination key is absent): plain
objects merge key-wise, arrays merge element-wise, anything else is
overridden by assignment; an object/array source lands as a structural
copy when the destination is not of the same shape. -/
def jsMergeVal : Option JVal → JVal → JVal
  | some (.obj d), .obj s => .obj (jsMergeFields d s)
  | _, .obj s => .obj (jsMergeFields [] s)
  | some (.arr d), .arr s => .arr (jsMergeElems d s)
  | _, .arr s => .arr s
  | _, v => v
termination_by d v => sizeOf v

/-- Key-wise lodash merge of source fields into destination fields. -/
def jsMergeFields : List (String × JVal) → List (String × JVal) → List (String × JVal)
  | d, [] => d
  | d, (k, v) :: rest => jsMergeFields (setField d k (jsMergeVal (getField d k) v)) rest
termination_by d s => sizeOf s

/-- Element-wise lodash merge of a source array into a destination array:
indices present in both are merged, the longer tail survives. -/
def jsMergeElems : List JVal → List JVal → List JVal
  | d, [] => d
  | [], s => s
  | dh :: dt, sh :: st => jsMergeVal (some dh) sh :: jsMergeElems dt st
termination_by d s => sizeOf s

end

/-! ## The `JsonQuery` spec normalizer and resolvers (`src/services/query.js`) -/

/-- The state of a `JsonQuery` instance after its constructor ran.
`filter` and `additionalFilter` hold the already-translated predicates
(the constructor pipes the raw expressions through `_parseWhere`, i.e.
through the opaque translator).  `models` is the registry returned by the
`this.models()` callback. -/
structure JsonQuery where
  models : List (String × JVal)
  page : Int := 1
  perPage : Int := 20
  isAllPage : Bool := false
  orderBy : List JVal := []
  expands : List JVal := []
  attributes : List JVal := []
  filter : JVal := .obj []
  additionalFilter : JVal := .obj []

/-- The `JsonQuery` constructor: each config field is kept only when it
has the documented type (`typeof`/`Array.isArray` checks), otherwise the
class-field default stands; `page`/`perPage` additionally require
positivity.  `_validateAttributes` is the identity.  `filter` and
`additionalFilter` default to `\x7b\x7d` under `??` and are translated by
`t` (the `JsonQuerySequelize.toQuery` collaborator). -/
def mkJsonQuery (t : JVal → JVal) (config : JVal) (models : List (String × JVal)) : JsonQuery where
  models := models
  page := match config.get? "page" with
    | some (.num n) => if 0 < n then n else 1
    | _ => 1
  perPage := match config.get? "perPage" with
    | some (.num n) => if 0 < n then n else 20
    | _ => 20
  isAllPage := match config.get? "allPage" with
    | some (.bool b) => b
    | _ => false
  orderBy := match config.get? "orderBy" with
    | some (.arr l) => l
    | _ => []
  expands := match config.get? "expands" with
    | some (.arr l) => l
    | _ => []
  attributes := match config.get? "attributes" with
    | some (.arr l) => l
    | _ => []
  filter := t (jsGetD (config.get? "filter") (.obj []))
  additionalFilter := t (jsGetD (config.get? "additionalFilter") (.obj []))

/-- `getOffset()` — `(this.page - 1) * this.perPage`. -/
def getOffset (q : JsonQuery) : Int :=
  (q.page - 1) * q.perPage

/-- `_.trim(query, '$-')`: strip any run of the sigil characters from
both ends of the token. -/
def trimSigils (s : String) : String :=
  String.mk (((s.toList.dropWhile fun c => c == '$' || c == '-').reverse.dropWhile
    fun c => c == '$' || c == '-').reverse)

/-- Helper for the JS `split('.')`: split at every dot, preserving empty
segments; a string without dots yields the one-element list of itself. -/
def splitDotAux : List Char → List Char → List String
  | [], acc => [String.mk acc.reverse]
  | c :: rest, acc =>
    if c == '.' then String.mk acc.reverse :: splitDotAux rest []
    else splitDotAux rest (c :: acc)

/-- `s.split('.')`. -/
def splitDot (s : String) : List String :=
  splitDotAux s.toList []

/-- The per-token body of `getOrderBy`: direction from a leading `-`,
relation qualification from the presence of `$`, the trimmed token split
on `.` into at most a relation segment and a column segment; the
qualifier object is prepended only when the token is `$`-qualified and
its first segment resolves to a truthy registry entry. -/
def parseOrderTok (models : List (String × JVal)) (query : String) : JVal :=
  let directionDesc := query.toList.take 1 == ['-']
  let isRelatedColumn := query.toList.contains '$'
  let orderQuery := trimSigils query
  let orderSplit := splitDot orderQuery
  let column := (orderSplit.get? 1).getD ((orderSplit.get? 0).getD "")
  let relation := (getField models ((orderSplit.get? 0).getD "")).getD .null
  let result := if directionDesc
    then [JVal.str column, JVal.str "DESC"]
    else [JVal.str column, JVal.str "ASC"]
  let result := if isRelatedColumn && relation.truthy
    then JVal.obj [("model", relation), ("as", JVal.str ((orderSplit.get? 0).getD ""))] :: result
    else result
  JVal.arr result

/-- The filter in `getOrderBy`: `typeof s === 'string' && s !== ''`. -/
def isStringTok : JVal → Bool
  | .str s => s != ""
  | _ => false

/-- `getOrderBy`: keep the non-empty string tokens of the chosen input
sequence and map each through the token parser.  The `field ||
this.orderBy` choice is made by the callers of this definition. -/
def getOrderBy (models : List (String × JVal)) (tokens : List JVal) : List JVal :=
  tokens.filterMap fun v =>
    match v with
    | .str s => if s != "" then some (parseOrderTok models s) else none
    | _ => none

/-- One iteration of the `getInclude` loop.  A string entry passes
through verbatim; `null` has `typeof 'object'` and crashes the
destructuring (`TypeError`), modelled as `.error`; an object entry is
kept only when `name` is truthy and `models[name] || models[modelName]`
is truthy, copying `required`/`limit`/`separate` under their `typeof`
guards, resolving a truthy `order` through the order resolver (a truthy
non-array `order` has no `.filter` and crashes), passing `attributes`
through `_validateAttributes` (the identity) and `where` through the
translator; numbers, booleans and arrays fall through the `switch` (an
array destructures to an absent `name`) and are dropped. -/
def expandToInclude (t : JVal → JVal) (models : List (String × JVal)) :
    JVal → Except Unit (Option JVal)
  | .str s => .ok (some (.str s))
  | .null => .error ()
  | .obj f =>
    let name := getField f "name"
    let nameKey := propKey name
    let modelNameKey := propKey (getField f "modelName")
    if optTruthy name
        && (optTruthy (getField models nameKey) || optTruthy (getField models modelNameKey)) then
      let model := if optTruthy (getField models modelNameKey)
        then jsGetD (getField models modelNameKey) .null
        else jsGetD (getField models nameKey) .null
      let req := match getField f "required" with
        | some (.bool b) => [("required", JVal.bool b)]
        | _ => []
      let lim := match getField f "limit" with
        | some (.num n) => [("limit", JVal.num n)]
        | _ => []
      let sep := match getField f "separate" with
        | some (.bool b) => [("separate", JVal.bool b)]
        | _ => []
      let attrsPart := match getField f "attributes" with
        | some v => if v.truthy then [("attributes", v)] else []
        | none => []
      let wherePart := match getField f "where" with
        | some v => if v.truthy then [("where", t v)] else []
        | none => []
      match getField f "order" with
      | some (.arr l) =>
        .ok (some (.obj ([("model", model), ("as", jsGetD name .null)]
          ++ req ++ lim ++ sep
          ++ [("order", .arr (getOrderBy models l))] ++ attrsPart ++ wherePart)))
      | some v =>
        if v.truthy then .error ()
        else .ok (some (.obj ([("model", model), ("as", jsGetD name .null)]
          ++ req ++ lim ++ sep ++ attrsPart ++ wherePart)))
      | none =>
        .ok (some (.obj ([("model", model), ("as", jsGetD name .null)]
          ++ req ++ lim ++ sep ++ attrsPart ++ wherePart)))
    else .ok none
  | _ => .ok none

/-- `getInclude()`: fold the expand entries in order, appending each kept
entry; the first crashing entry aborts the call. -/
def getInclude (t : JVal → JVal) (models : List (String × JVal)) :
    List JVal → Except Unit (List JVal)
  | [] => .ok []
  | e :: rest =>
    match expandToInclude t models e with
    | .error u => .error u
    | .ok o =>
      match getInclude t models rest with
      | .error u => .error u
      | .ok l => .ok (match o with | some v => v :: l | none => l)

/-! ## The descriptor assembler `getQuery(queryConfig, isOne)`

The source mutates the caller-supplied `queryConfig` object field by
field and finally `return queryConfig`; the embedding threads the
descriptor state through one step per source statement, so the value
returned by `getQuery` below is simultaneously the post-call content of
the caller's object and the returned descriptor.  The instance itself is
returned unchanged as the first component (no statement of `getQuery`
assigns to `this`). -/

/-- Source lines 216-219: unless `allPage`, assign `offset` and `limit` —
`null` under singleton fetch, otherwise the base value under `??` with
the computed offset / `perPage` as defaults. -/
def applyPagination (q : JsonQuery) (isOne : Bool) (qc : JVal) : JVal :=
  if q.isAllPage then qc
  else
    let qc := qc.set "offset" (if isOne then .null else jsGetD (qc.get? "offset") (.num (getOffset q)))
    qc.set "limit" (if isOne then .null else jsGetD (qc.get? "limit") (.num q.perPage))

/-- Source line 221: `order` is `null` under singleton fetch, else the
base order under `??` with the resolved `orderBy` as default. -/
def applyOrder (q : JsonQuery) (isOne : Bool) (qc : JVal) : JVal :=
  qc.set "order" (if isOne then .null else jsGetD (qc.get? "order") (.arr (getOrderBy q.models q.orderBy)))

/-- Source line 222: `include` is the lodash merge of the base include
(defaulted to `[]`) with the resolved expand entries. -/
def applyInclude (inc : List JVal) (qc : JVal) : JVal :=
  qc.set "include" (jsMergeVal (some (jsGetD (qc.get? "include") (.arr []))) (.arr inc))

/-- Source lines 224-227: merge the instance attributes into the base
attributes and store the result only when non-empty (`.length > 0` of a
non-array is `undefined > 0`, i.e. false). -/
def applyAttributes (q : JsonQuery) (qc : JVal) : JVal :=
  match jsMergeVal (some (jsGetD (qc.get? "attributes") (.arr []))) (.arr q.attributes) with
  | .arr l => if 0 < l.length then qc.set "attributes" (.arr l) else qc
  | _ => qc

/-- Source lines 229-239 (one guarded statement per predicate): when the
predicate is truthy, merge the object holding it under the single key
`$and` into the base `where` (defaulted to `\x7b\x7d`). -/
def applyWhere (p : JVal) (qc : JVal) : JVal :=
  if p.truthy then
    qc.set "where" (jsMergeVal (some (jsGetD (qc.get? "where") (.obj []))) (.obj [("$and", p)]))
  else qc

/-- `getQuery(queryConfig, isOne)`, source lines 214-242.  The result is
`(post-call instance, post-call queryConfig)`; the source returns the
mutated `queryConfig` itself. -/
def getQuery (t : JVal → JVal) (q : JsonQuery) (queryConfig : JVal) (isOne : Bool) :
    Except Unit (JsonQuery × JVal) :=
  match getInclude t q.models q.expands with
  | .error u => .error u
  | .ok inc =>
    let qc := applyPagination q isOne queryConfig
    let qc := applyOrder q isOne qc
    let qc := applyInclude inc qc
    let qc := applyAttributes q qc
    let qc := applyWhere q.filter qc
    let qc := applyWhere q.additionalFilter qc
    .ok (q, qc)

/-- `toJSON()` — the serializer: the descriptor assembled with the
default base `\x7b\x7d` and `isOne = false`. -/
def jsonQueryToJSON (t : JVal → JVal) (q : JsonQuery) : Except Unit (JsonQuery × JVal) :=
  getQuery t q (.obj []) false

/-! ## The connection bootstrap (`src/services/baseDb.js`)

`BaseConnection` keeps one static `instance`; the embedding threads that
static slot (`Option Connection`) explicitly.  The awaited
`handleSRV` step performs DNS lookups and is passed as an opaque
collaborator `handleSrv`; each `initModel` callback is an opaque function
from the db handle to the constructed model.  The association and
default-insertion callbacks collected by `prepare` are external
collaborators invoked on the already-registered models; they do not
change the registration state modelled here. -/

structure Connection where
  db : JVal
  models : List (String × JVal)
  config : JVal

/-- The two outcomes of `BaseConnection.prepare`: the literal `false` of
the double-initialization guard, or the `(db, insertDefaults)` result
object (its models listed for inspection). -/
inductive PrepareOutcome where
  | alreadyPrepared
  | prepared (db : JVal) (models : List (String × JVal))

/-- The schema normalization inside `getInstance`: when
`config?.define?.schema` is a truthy string, the global dash-to-underscore
replacement is applied to it. -/
def normalizeSchema (config : JVal) : JVal :=
  match config.get? "define" with
  | some (.obj df) =>
    match getField df "schema" with
    | some (.str s) =>
      if s != "" then
        config.set "define" ((JVal.obj df).set "schema"
          (.str (String.map (fun c => if c == '-' then '_' else c) s)))
      else config
    | _ => config
  | _ => config

/-- `getInstance(config)`: reuse the existing instance, or construct one
with the normalized config and an empty model map, `createDbConnection`
setting `db = \x7b\x7d`. -/
def getInstance (st : Option Connection) (config : JVal) : Option Connection × Connection :=
  match st with
  | some inst => (some inst, inst)
  | none =>
    let inst : Connection := { db := .obj [], models := [], config := normalizeSchema config }
    (some inst, inst)

/-- `addModel(name, model)`. -/
def addModel (c : Connection) (name : String) (model : JVal) : Connection :=
  { c with models := setField c.models name model }

/-- `BaseConnection.prepare(models, config, ...)`: when an instance
already exists, return `false` at once; otherwise resolve the config,
create the instance and register every model in order. -/
def prepare (handleSrv : JVal → JVal) (st : Option Connection)
    (models : List (String × (JVal → JVal))) (config : JVal) :
    Option Connection × PrepareOutcome :=
  match st with
  | some inst => (some inst, .alreadyPrepared)
  | none =>
    let handledConfig := handleSrv config
    let (_, conn) := getInstance none handledConfig
    let conn := models.foldl (fun c p => addModel c p.1 (p.2 c.db)) conn
    (some conn, .prepared conn.db conn.models)

/-! ## Basic lemmas about property access and the lodash merge -/

lemma getField_setField_self (f : List (String × JVal)) (k : String) (v : JVal) :
    getField (setField f k v) k = some v := by
  induction f with
  | nil => simp [setField, getField]
  | cons p rest ih =>
    by_cases h : p.1 = k
    · simp [setField, getField, h]
    · simp [setField, getField, h, ih]

lemma getField_setField_ne (f : List (String × JVal)) (k k' : String) (v : JVal)
    (h : k ≠ k') : getField (setField f k v) k' = getField f k' := by
  induction f with
  | nil => simp [setField, getField, h]
  | cons p rest ih =>
    by_cases hp : p.1 = k
    · simp [setField, getField, hp, h]
    · by_cases hp' : p.1 = k'
      · simp [setField, getField, hp, hp', Ne.symm h]
      · simp [setField, getField, hp, hp', ih]

lemma jget_set_self (f : List (String × JVal)) (k : String) (v : JVal) :
    ((JVal.obj f).set k v).get? k = some v := by
  simp [JVal.set, JVal.get?, getField_setField_self]

lemma jget_set_ne (qc : JVal) (k k' : String) (v : JVal) (h : k ≠ k') :
    (qc.set k v).get? k' = qc.get? k' := by
  cases qc <;> simp [JVal.set, JVal.get?, getField_setField_ne _ _ _ _ h]

lemma jsMergeElems_nil_left (s : List JVal) : jsMergeElems [] s = s := by
  cases s <;> simp [jsMergeElems]

lemma jsMergeElems_length (b s : List JVal) :
    (jsMergeElems b s).length = max b.length s.length := by
  induction b generalizing s with
  | nil => simp [jsMergeElems_nil_left]
  | cons x bt ih =>
    cases s with
    | nil => simp [jsMergeElems]
    | cons y st =>
      simp only [jsMergeElems, List.length_cons, ih]
      omega

lemma jsMergeElems_get (b s : List JVal) (i : Nat) :
    (jsMergeElems b s)[i]? =
      match b[i]?, s[i]? with
      | some x, some y => some (jsMergeVal (some x) y)
      | none, some y => some y
      | some x, none => some x
      | none, none => none := by
  induction b generalizing s i with
  | nil =>
    rw [jsMergeElems_nil_left]
    cases s[i]? <;> simp
  | cons x bt ih =>
    cases s with
    | nil =>
      simp only [jsMergeElems]
      cases h : (x :: bt)[i]? <;> simp [h]
    | cons y st =>
      cases i with
      | zero => simp [jsMergeElems]
      | succ j => simpa [jsMergeElems] using ih st j

/-! ## Frame lemmas for the assembler steps -/

lemma applyOrder_get_ne (q : JsonQuery) (one : Bool) (qc : JVal) (k : String)
    (h : k ≠ "order") : (applyOrder q one qc).get? k = qc.get? k := by
  simp [applyOrder, jget_set_ne _ _ _ _ (fun e => h e.symm)]

lemma applyInclude_get_ne (inc : List JVal) (qc : JVal) (k : String)
    (h : k ≠ "include") : (applyInclude inc qc).get? k = qc.get? k := by
  simp [applyInclude, jget_set_ne _ _ _ _ (fun e => h e.symm)]

lemma applyAttributes_get_ne (q : JsonQuery) (qc : JVal) (k : String)
    (h : k ≠ "attributes") : (applyAttributes q qc).get? k = qc.get? k := by
  unfold applyAttributes
  split
  · split
    · rw [jget_set_ne _ _ _ _ (fun e => h e.symm)]
    · rfl
  · rfl

lemma applyWhere_get_ne (p : JVal) (qc : JVal) (k : String)
    (h : k ≠ "where") : (applyWhere p qc).get? k = qc.get? k := by
  unfold applyWhere
  split
  · rw [jget_set_ne _ _ _ _ (fun e => h e.symm)]
  · rfl

lemma applyPagination_get_ne (q : JsonQuery) (one : Bool) (qc : JVal) (k : String)
    (h1 : k ≠ "offset") (h2 : k ≠ "limit") :
    (applyPagination q one qc).get? k = qc.get? k := by
  unfold applyPagination
  split
  · rfl
  · rw [jget_set_ne _ _ _ _ (fun e => h2 e.symm),
      jget_set_ne _ _ _ _ (fun e => h1 e.symm)]

lemma set_obj (f : List (String × JVal)) (k : String) (v : JVal) :
    (JVal.obj f).set k v = .obj (setField f k v) := rfl

lemma applyPagination_obj (q : JsonQuery) (one : Bool) (f : List (String × JVal)) :
    ∃ g, applyPagination q one (.obj f) = .obj g := by
  unfold applyPagination
  split
  · exact ⟨f, rfl⟩
  · exact ⟨_, rfl⟩

lemma applyOrder_obj (q : JsonQuery) (one : Bool) (f : List (String × JVal)) :
    ∃ g, applyOrder q one (.obj f) = .obj g := ⟨_, rfl⟩

lemma applyInclude_obj (inc : List JVal) (f : List (String × JVal)) :
    ∃ g, applyInclude inc (.obj f) = .obj g := ⟨_, rfl⟩

/-- Inversion of `getQuery`: a successful call leaves the instance
untouched and produces the step chain on the base descriptor. -/
lemma getQuery_ok_inv (t : JVal → JVal) (q : JsonQuery) (qc : JVal) (one : Bool)
    (q' : JsonQuery) (d : JVal) (h : getQuery t q qc one = .ok (q', d)) :
    q' = q ∧ ∃ inc, getInclude t q.models q.expands = .ok inc ∧
      d = applyWhere q.additionalFilter (applyWhere q.filter (applyAttributes q
        (applyInclude inc (applyOrder q one (applyPagination q one qc))))) := by
  unfold getQuery at h
  cases hinc : getInclude t q.models q.expands with
  | error u => rw [hinc] at h; exact absurd h (by simp)
  | ok inc =>
    rw [hinc] at h
    simp only [Except.ok.injEq, Prod.mk.injEq] at h
    exact ⟨h.1.symm, inc, rfl, h.2.symm⟩

/-! ## Well-shaped expand entries -/

/-- Expand entries on which the include resolver cannot crash: anything
except `null` (whose destructuring throws) and except an object carrying
a truthy non-array `order` (on which the order resolver would be called
with a value lacking `.filter`).  Every entry of the documented wire
shape — a plain name or an object with an optional `order` array — is
well shaped. -/
def goodExpand : JVal → Bool
  | .null => false
  | .obj f =>
    (match getField f "order" with
    | some (.arr _) => true
    | some v => !v.truthy
    | none => true)
  | _ => true

lemma expandToInclude_ok (t : JVal → JVal) (models : List (String × JVal)) (e : JVal)
    (h : goodExpand e = true) : ∃ o, expandToInclude t models e = .ok o := by
  cases e with
  | null => simp [goodExpand] at h
  | str s => exact ⟨_, rfl⟩
  | bool b => exact ⟨_, rfl⟩
  | num n => exact ⟨_, rfl⟩
  | arr l => exact ⟨_, rfl⟩
  | obj f =>
    simp only [expandToInclude]
    split
    · cases horder : getField f "order" with
      | none => exact ⟨_, rfl⟩
      | some v =>
        simp only [goodExpand] at h
        rw [horder] at h
        cases v with
        | arr l => exact ⟨_, rfl⟩
        | null => exact ⟨_, rfl⟩
        | bool b =>
          cases b with
          | false => exact ⟨_, rfl⟩
          | true => simp [JVal.truthy] at h
        | num n =>
          have hn : n = 0 := by simpa [JVal.truthy] using h
          subst hn
          exact ⟨_, rfl⟩
        | str s =>
          have hs : s = "" := by simpa [JVal.truthy] using h
          subst hs
          exact ⟨_, rfl⟩
        | obj g => simp [JVal.truthy] at h
    · exact ⟨none, rfl⟩

/-- The per-entry view of the include loop: the entry a non-crashing
iteration keeps (`none` when the entry is skipped or dropped). -/
def keptEntry (t : JVal → JVal) (models : List (String × JVal)) (e : JVal) : Option JVal :=
  match expandToInclude t models e with
  | .ok o => o
  | .error _ => none

lemma getInclude_ok_filterMap (t : JVal → JVal) (models : List (String × JVal))
    (es : List JVal) (h : ∀ e ∈ es, goodExpand e = true) :
    ∃ l, getInclude t models es = .ok l
      ∧ l = es.filterMap (keptEntry t models) ∧ l.length ≤ es.length := by
  induction es with
  | nil => exact ⟨[], rfl, rfl, le_refl 0⟩
  | cons e rest ih =>
    obtain ⟨o, ho⟩ := expandToInclude_ok t models e (h e (by simp))
    obtain ⟨l, hl, hfm, hlen⟩ := ih (fun x hx => h x (by simp [hx]))
    cases o with
    | some v =>
      refine ⟨v :: l, ?_, ?_, by simpa using hlen⟩
      · simp only [getInclude]
        rw [ho, hl]
      · rw [List.filterMap_cons, keptEntry, ho, hfm]
    | none =>
      refine ⟨l, ?_, ?_, le_trans hlen (Nat.le_succ _)⟩
      · simp only [getInclude]
        rw [ho, hl]
      · rw [List.filterMap_cons, keptEntry, ho, hfm]

/-! ## Claim theorems -/

/-- C10: when a connection instance already exists,
`BaseConnection.prepare` returns `false` immediately — the static slot is
unchanged, the same instance (with its model map intact) survives, and no
registration or association work of the success path happens. -/
theorem C10_prepare_double_init_is_noop (handleSrv : JVal → JVal) (inst : Connection)
    (models : List (String × (JVal → JVal))) (config : JVal) :
    prepare handleSrv (some inst) models config = (some inst, .alreadyPrepared)
    ∧ (prepare handleSrv (some inst) models config).1 = some { inst with models := inst.models } := by
  exact ⟨rfl, rfl⟩

/-- C7: the normalized spec always satisfies `page ≥ 1` and `perPage ≥ 1`;
a config `page`/`perPage` that is not a positive number is silently
replaced by the default (1 resp. 20) while a positive number is kept
verbatim; the offset is `(page - 1) * perPage`; in particular the
defaults give offset 0 and per-page (the limit) 20, and page 3 with
per-page 10 gives offset 20. -/
theorem C7_pagination_normalization (t : JVal → JVal) (models : List (String × JVal))
    (config : JVal) :
    1 ≤ (mkJsonQuery t config models).page
    ∧ 1 ≤ (mkJsonQuery t config models).perPage
    ∧ getOffset (mkJsonQuery t config models)
        = ((mkJsonQuery t config models).page - 1) * (mkJsonQuery t config models).perPage
    ∧ ((¬ ∃ n : Int, config.get? "page" = some (.num n) ∧ 0 < n)
        → (mkJsonQuery t config models).page = 1)
    ∧ ((¬ ∃ n : Int, config.get? "perPage" = some (.num n) ∧ 0 < n)
        → (mkJsonQuery t config models).perPage = 20)
    ∧ (∀ n : Int, config.get? "page" = some (.num n) → 0 < n
        → (mkJsonQuery t config models).page = n)
    ∧ (∀ n : Int, config.get? "perPage" = some (.num n) → 0 < n
        → (mkJsonQuery t config models).perPage = n)
    ∧ getOffset (mkJsonQuery t (.obj []) models) = 0
    ∧ (mkJsonQuery t (.obj []) models).perPage = 20
    ∧ getOffset (mkJsonQuery t (.obj [("page", .num 3), ("perPage", .num 10)]) models) = 20 := by
  have hpage : (mkJsonQuery t config models).page
      = (match config.get? "page" with
        | some (.num n) => if 0 < n then n else 1
        | _ => 1) := rfl
  have hper : (mkJsonQuery t config models).perPage
      = (match config.get? "perPage" with
        | some (.num n) => if 0 < n then n else 20
        | _ => 20) := rfl
  refine ⟨?_, ?_, rfl, ?_, ?_, ?_, ?_, rfl, rfl, rfl⟩
  · rw [hpage]
    cases h : config.get? "page" with
    | none => simp
    | some v => cases v <;> simp <;> split <;> omega
  · rw [hper]
    cases h : config.get? "perPage" with
    | none => simp
    | some v => cases v <;> simp <;> split <;> omega
  · intro hne
    rw [hpage]
    cases h : config.get? "page" with
    | none => simp
    | some v =>
      cases v <;> simp
      rename_i n
      intro hpos
      exact absurd ⟨n, h, hpos⟩ hne
  · intro hne
    rw [hper]
    cases h : config.get? "perPage" with
    | none => simp
    | some v =>
      cases v <;> simp
      rename_i n
      intro hpos
      exact absurd ⟨n, h, hpos⟩ hne
  · intro n h hpos
    rw [hpage, h]
    simp [hpos]
  · intro n h hpos
    rw [hper, h]
    simp [hpos]

/-- Witness for C7 at a concrete config: page 3 is kept verbatim. -/
theorem C7_pagination_normalization_witness :
    (mkJsonQuery (fun v => v) (.obj [("page", .num 3)]) []).page = 3 :=
  (C7_pagination_normalization (fun v => v) [] (.obj [("page", .num 3)])).2.2.2.2.2.1
    3 rfl (by decide)

/-- C6: with `allPage = true`, the descriptor assembled over the default
empty base with `isOne = false` carries no `offset` and no `limit` field
at all, whatever the page and per-page values are. -/
theorem C6_allPage_omits_pagination (t : JVal → JVal) (q : JsonQuery) (q' : JsonQuery)
    (d : JVal) (hall : q.isAllPage = true) (h : getQuery t q (.obj []) false = .ok (q', d)) :
    d.get? "offset" = none ∧ d.get? "limit" = none := by
  obtain ⟨-, inc, -, hd⟩ := getQuery_ok_inv t q (.obj []) false q' d h
  subst hd
  constructor
  · rw [applyWhere_get_ne _ _ _ (by decide), applyWhere_get_ne _ _ _ (by decide),
      applyAttributes_get_ne _ _ _ (by decide), applyInclude_get_ne _ _ _ (by decide),
      applyOrder_get_ne _ _ _ _ (by decide)]
    unfold applyPagination
    rw [hall]
    rfl
  · rw [applyWhere_get_ne _ _ _ (by decide), applyWhere_get_ne _ _ _ (by decide),
      applyAttributes_get_ne _ _ _ (by decide), applyInclude_get_ne _ _ _ (by decide),
      applyOrder_get_ne _ _ _ _ (by decide)]
    unfold applyPagination
    rw [hall]
    rfl

/-- Witness for C6: a spec with `allPage = true` and page 3, per-page 10. -/
theorem C6_allPage_omits_pagination_witness :
    ((JVal.obj [("offset", .num 0)]).get? "offset" = some (.num 0))
    ∧ ((JVal.obj [("order", .arr []), ("include", .arr []),
          ("where", .obj [("$and", .obj [])])]).get? "offset" = none
        ∧ (JVal.obj [("order", .arr []), ("include", .arr []),
            ("where", .obj [("$and", .obj [])])]).get? "limit" = none) := by
  refine ⟨rfl, ?_⟩
  refine C6_allPage_omits_pagination (fun v => v)
    { models := [], page := 3, perPage := 10, isAllPage := true }
    { models := [], page := 3, perPage := 10, isAllPage := true }
    (.obj [("order", .arr []), ("include", .arr []), ("where", .obj [("$and", .obj [])])])
    rfl ?_
  simp [getQuery, getInclude, applyPagination, applyOrder, applyInclude, applyAttributes,
    applyWhere, jsMergeVal, jsMergeFields, jsMergeElems, jsGetD, JVal.set, JVal.get?,
    setField, getField, getOrderBy, getOffset, JVal.truthy]

/-- C5: assembling twice with the same base-descriptor value and flag,
the second call starting from the instance state the first call left
behind, yields structurally equal descriptors — the first call leaves no
hidden state in the `JsonQuery`. -/
theorem C5_double_call_stable (t : JVal → JVal) (q : JsonQuery) (base : JVal) (one : Bool)
    (q1 : JsonQuery) (d1 : JVal) (q2 : JsonQuery) (d2 : JVal)
    (h1 : getQuery t q base one = .ok (q1, d1))
    (h2 : getQuery t q1 base one = .ok (q2, d2)) :
    d2 = d1 := by
  obtain ⟨hq, -⟩ := getQuery_ok_inv t q base one q1 d1 h1
  subst hq
  rw [h1] at h2
  simp only [Except.ok.injEq, Prod.mk.injEq] at h2
  exact h2.2.symm

/-- Witness for C5: a concrete double call over the default spec. -/
theorem C5_double_call_stable_witness :
    (JVal.obj [("offset", .num 0), ("limit", .num 20), ("order", .arr []),
        ("include", .arr []), ("where", .obj [("$and", .obj [])])])
      = .obj [("offset", .num 0), ("limit", .num 20), ("order", .arr []),
        ("include", .arr []), ("where", .obj [("$and", .obj [])])] := by
  refine C5_double_call_stable (fun v => v) { models := [] } (.obj []) false
    { models := [] } _ { models := [] } _ ?_ ?_ <;>
  · simp [getQuery, getInclude, applyPagination, applyOrder, applyInclude, applyAttributes,
      applyWhere, jsMergeVal, jsMergeFields, jsMergeElems, jsGetD, JVal.set, JVal.get?,
      setField, getField, getOrderBy, getOffset, JVal.truthy]

/-- C4 (amended): the assembler is a pure function of spec, base and flag
that never mutates the `JsonQuery` — but the descriptor it returns is the
caller-supplied base object updated in place, not a fresh value (the
source assigns into `queryConfig` and ends with `return queryConfig`). -/
theorem C4_no_spec_mutation (t : JVal → JVal) (q : JsonQuery) (qc : JVal) (one : Bool)
    (q' : JsonQuery) (d : JVal) (h : getQuery t q qc one = .ok (q', d)) :
    q' = q := (getQuery_ok_inv t q qc one q' d h).1

/-- Witness for C4 at a concrete call. -/
theorem C4_no_spec_mutation_witness : ({ models := [] } : JsonQuery) = { models := [] } := by
  refine C4_no_spec_mutation (fun v => v) { models := [] } (.obj []) false { models := [] }
    (.obj [("offset", .num 0), ("limit", .num 20), ("order", .arr []),
      ("include", .arr []), ("where", .obj [("$and", .obj [])])]) ?_
  simp [getQuery, getInclude, applyPagination, applyOrder, applyInclude, applyAttributes,
    applyWhere, jsMergeVal, jsMergeFields, jsMergeElems, jsGetD, JVal.set, JVal.get?,
    setField, getField, getOrderBy, getOffset, JVal.truthy]

/-- Counterexample for C4 as stated: passing the empty base descriptor,
the post-call base (which is also the returned value, since the source
returns the mutated `queryConfig`) differs from the value the caller
passed in — the base descriptor does not survive the call unmutated. -/
theorem C4_counterexample :
    getQuery (fun v => v) { models := [] } (.obj []) false
      = .ok ({ models := [] },
          .obj [("offset", .num 0), ("limit", .num 20), ("order", .arr []),
            ("include", .arr []), ("where", .obj [("$and", .obj [])])])
    ∧ (JVal.obj [("offset", .num 0), ("limit", .num 20), ("order", .arr []),
        ("include", .arr []), ("where", .obj [("$and", .obj [])])]) ≠ .obj [] := by
  constructor
  · simp [getQuery, getInclude, applyPagination, applyOrder, applyInclude, applyAttributes,
      applyWhere, jsMergeVal, jsMergeFields, jsMergeElems, jsGetD, JVal.set, JVal.get?,
      setField, getField, getOrderBy, getOffset, JVal.truthy]
  · simp

/-- C2 (amended): under singleton fetch, `order` is always forced to the
explicit absent value `null`; `offset` and `limit` are forced to `null`
exactly when `allPage` is false, while with `allPage` true the pagination
block is skipped and the base descriptor offset/limit fields (present or
absent) survive unchanged. -/
theorem C2_singleton_fetch_overrides (t : JVal → JVal) (q : JsonQuery)
    (bf : List (String × JVal)) (q' : JsonQuery) (d : JVal)
    (h : getQuery t q (.obj bf) true = .ok (q', d)) :
    d.get? "order" = some .null
    ∧ (q.isAllPage = false →
        d.get? "offset" = some .null ∧ d.get? "limit" = some .null)
    ∧ (q.isAllPage = true →
        d.get? "offset" = getField bf "offset" ∧ d.get? "limit" = getField bf "limit") := by
  obtain ⟨-, inc, -, hd⟩ := getQuery_ok_inv t q (.obj bf) true q' d h
  subst hd
  refine ⟨?_, ?_, ?_⟩
  · rw [applyWhere_get_ne _ _ _ (by decide), applyWhere_get_ne _ _ _ (by decide),
      applyAttributes_get_ne _ _ _ (by decide), applyInclude_get_ne _ _ _ (by decide)]
    obtain ⟨g, hg⟩ := applyPagination_obj q true bf
    rw [hg]
    simpa [applyOrder] using jget_set_self g "order" _
  · intro hfalse
    constructor
    · rw [applyWhere_get_ne _ _ _ (by decide), applyWhere_get_ne _ _ _ (by decide),
        applyAttributes_get_ne _ _ _ (by decide), applyInclude_get_ne _ _ _ (by decide),
        applyOrder_get_ne _ _ _ _ (by decide)]
      unfold applyPagination
      rw [hfalse]
      simp only [Bool.false_eq_true, if_false, if_true]
      rw [jget_set_ne _ _ _ _ (by decide)]
      exact jget_set_self bf "offset" _
    · rw [applyWhere_get_ne _ _ _ (by decide), applyWhere_get_ne _ _ _ (by decide),
        applyAttributes_get_ne _ _ _ (by decide), applyInclude_get_ne _ _ _ (by decide),
        applyOrder_get_ne _ _ _ _ (by decide)]
      unfold applyPagination
      rw [hfalse]
      simp only [Bool.false_eq_true, if_false, if_true]
      exact jget_set_self _ "limit" _
  · intro htrue
    constructor
    · rw [applyWhere_get_ne _ _ _ (by decide), applyWhere_get_ne _ _ _ (by decide),
        applyAttributes_get_ne _ _ _ (by decide), applyInclude_get_ne _ _ _ (by decide),
        applyOrder_get_ne _ _ _ _ (by decide)]
      unfold applyPagination
      rw [htrue]
      rfl
    · rw [applyWhere_get_ne _ _ _ (by decide), applyWhere_get_ne _ _ _ (by decide),
        applyAttributes_get_ne _ _ _ (by decide), applyInclude_get_ne _ _ _ (by decide),
        applyOrder_get_ne _ _ _ _ (by decide)]
      unfold applyPagination
      rw [htrue]
      rfl

/-- Witness for C2 (amended) at a concrete call with `allPage = false`. -/
theorem C2_singleton_fetch_overrides_witness :
    ((JVal.obj [("offset", .null), ("limit", .null), ("order", .null), ("include", .arr []),
        ("where", .obj [("$and", .obj [])])]).get? "order" = some .null)
    ∧ ((JVal.obj [("offset", .null), ("limit", .null), ("order", .null), ("include", .arr []),
        ("where", .obj [("$and", .obj [])])]).get? "offset" = some .null) := by
  have h := C2_singleton_fetch_overrides (fun v => v) { models := [] } []
    { models := [] }
    (.obj [("offset", .null), ("limit", .null), ("order", .null), ("include", .arr []),
      ("where", .obj [("$and", .obj [])])])
    (by simp [getQuery, getInclude, applyPagination, applyOrder, applyInclude, applyAttributes,
      applyWhere, jsMergeVal, jsMergeFields, jsMergeElems, jsGetD, JVal.set, JVal.get?,
      setField, getField, getOrderBy, getOffset, JVal.truthy])
  exact ⟨h.1, (h.2.1 rfl).1⟩

/-- Counterexample for C2 as stated: with `allPage = true` the pagination
block is skipped even under singleton fetch, so a base offset of 5
survives in the assembled descriptor instead of being forced absent. -/
theorem C2_counterexample :
    getQuery (fun v => v) { models := [], isAllPage := true }
        (.obj [("offset", .num 5)]) true
      = .ok ({ models := [], isAllPage := true },
          .obj [("offset", .num 5), ("order", .null), ("include", .arr []),
            ("where", .obj [("$and", .obj [])])])
    ∧ (JVal.num 5 ≠ JVal.null) := by
  constructor
  · simp [getQuery, getInclude, applyPagination, applyOrder, applyInclude, applyAttributes,
      applyWhere, jsMergeVal, jsMergeFields, jsMergeElems, jsGetD, JVal.set, JVal.get?,
      setField, getField, getOrderBy, getOffset, JVal.truthy]
  · simp

/-- C3 (amended): the assembled `include` is the element-wise lodash merge
of the base include sequence with the resolved expand entries — shared
indices are merged with the expand entry taking precedence (so a base
entry at an index also produced by an expand entry can be overwritten),
the longer tail survives on either side, and only when the base include
is empty is the output exactly the resolved expand sequence. -/
theorem C3_include_is_indexwise_merge (t : JVal → JVal) (q : JsonQuery) (one : Bool)
    (bf : List (String × JVal)) (b : List JVal) (r : List JVal) (q' : JsonQuery) (d : JVal)
    (hb : getField bf "include" = some (.arr b))
    (hr : getInclude t q.models q.expands = .ok r)
    (h : getQuery t q (.obj bf) one = .ok (q', d)) :
    d.get? "include" = some (.arr (jsMergeElems b r))
    ∧ (jsMergeElems b r).length = max b.length r.length
    ∧ (∀ i : Nat, (jsMergeElems b r)[i]? =
        match b[i]?, r[i]? with
        | some x, some y => some (jsMergeVal (some x) y)
        | none, some y => some y
        | some x, none => some x
        | none, none => none)
    ∧ (b = [] → jsMergeElems b r = r) := by
  obtain ⟨-, inc, hinc, hd⟩ := getQuery_ok_inv t q (.obj bf) one q' d h
  rw [hr] at hinc
  simp only [Except.ok.injEq] at hinc
  subst hinc
  subst hd
  refine ⟨?_, jsMergeElems_length b r, jsMergeElems_get b r, ?_⟩
  · rw [applyWhere_get_ne _ _ _ (by decide), applyWhere_get_ne _ _ _ (by decide),
      applyAttributes_get_ne _ _ _ (by decide)]
    obtain ⟨g1, hg1⟩ := applyPagination_obj q one bf
    have hkeep : (applyOrder q one (applyPagination q one (.obj bf))).get? "include"
        = some (.arr b) := by
      rw [applyOrder_get_ne _ _ _ _ (by decide),
        applyPagination_get_ne _ _ _ _ (by decide) (by decide)]
      exact hb
    obtain ⟨g2, hg2⟩ := applyOrder_obj q one g1
    rw [hg1] at hkeep ⊢
    unfold applyInclude
    rw [hkeep, hg2]
    have hmv : jsMergeVal (some (jsGetD (some (.arr b)) (.arr []))) (.arr r)
        = .arr (jsMergeElems b r) := by
      simp [jsGetD, jsMergeVal]
    rw [hmv]
    exact jget_set_self g2 "include" _
  · intro hbnil
    subst hbnil
    exact jsMergeElems_nil_left r

/-- Witness for C3 (amended) at a concrete call: base include of one
entry, one resolved expand entry. -/
theorem C3_include_is_indexwise_merge_witness :
    ((JVal.obj [("include", .arr [.str "b"]), ("offset", .num 0), ("limit", .num 20),
        ("order", .arr []), ("where", .obj [("$and", .obj [])])]).get? "include"
      = some (.arr (jsMergeElems [.str "a"] [.str "b"]))) := by
  have h := C3_include_is_indexwise_merge (fun v => v) { models := [], expands := [.str "b"] }
    false [("include", .arr [.str "a"])] [.str "a"] [.str "b"]
    { models := [], expands := [.str "b"] }
    (.obj [("include", .arr [.str "b"]), ("offset", .num 0), ("limit", .num 20),
      ("order", .arr []), ("where", .obj [("$and", .obj [])])])
    rfl rfl
    (by simp [getQuery, getInclude, expandToInclude, applyPagination, applyOrder, applyInclude,
      applyAttributes, applyWhere, jsMergeVal, jsMergeFields, jsMergeElems, jsGetD, JVal.set,
      JVal.get?, setField, getField, getOrderBy, getOffset, JVal.truthy])
  exact h.1

/-- Counterexample for C3 as stated: base include `["a"]` and expands
`["b"]` produce include `["b"]` — the base entry is overwritten by the
expand entry at index 0 instead of both appearing concatenated. -/
theorem C3_counterexample :
    getQuery (fun v => v) { models := [], expands := [.str "b"] }
        (.obj [("include", .arr [.str "a"])]) false
      = .ok ({ models := [], expands := [.str "b"] },
          .obj [("include", .arr [.str "b"]), ("offset", .num 0), ("limit", .num 20),
            ("order", .arr []), ("where", .obj [("$and", .obj [])])])
    ∧ (JVal.str "a") ∉ [JVal.str "b"] := by
  constructor
  · simp [getQuery, getInclude, expandToInclude, applyPagination, applyOrder, applyInclude,
      applyAttributes, applyWhere, jsMergeVal, jsMergeFields, jsMergeElems, jsGetD, JVal.set,
      JVal.get?, setField, getField, getOrderBy, getOffset, JVal.truthy]
  · simp

/-- C1 (code-bug evidence): the keyed `$and` merge lets the
caller-supplied filter absorb the access-control filter.  With the
translated caller filter restricting `ids` to the array `[1, 2, 3]` and
the translated access-control filter restricting `ids` to `[1]`, the
assembled `where` is identical to the one produced when the
access-control filter is the empty (always-true) object: lodash merges
the two operands under the single key `$and`, element-wise merging the
`ids` arrays back into `[1, 2, 3]`, so the `additionalFilter` leaves no
trace in the composed predicate at all. -/
theorem C1_keyed_merge_drops_access_filter :
    getQuery (fun v => v)
        { models := [],
          filter := .obj [("ids", .arr [.num 1, .num 2, .num 3])],
          additionalFilter := .obj [("ids", .arr [.num 1])] }
        (.obj []) false
      = .ok ({ models := [],
                 filter := .obj [("ids", .arr [.num 1, .num 2, .num 3])],
                 additionalFilter := .obj [("ids", .arr [.num 1])] },
          .obj [("offset", .num 0), ("limit", .num 20), ("order", .arr []),
            ("include", .arr []),
            ("where", .obj [("$and", .obj [("ids", .arr [.num 1, .num 2, .num 3])])])])
    ∧ getQuery (fun v => v)
        { models := [],
          filter := .obj [("ids", .arr [.num 1, .num 2, .num 3])],
          additionalFilter := .obj [] }
        (.obj []) false
      = .ok ({ models := [],
                 filter := .obj [("ids", .arr [.num 1, .num 2, .num 3])],
                 additionalFilter := .obj [] },
          .obj [("offset", .num 0), ("limit", .num 20), ("order", .arr []),
            ("include", .arr []),
            ("where", .obj [("$and", .obj [("ids", .arr [.num 1, .num 2, .num 3])])])])
    ∧ (JVal.obj [("ids", .arr [.num 1])]) ≠ .obj [] := by
  refine ⟨?_, ?_, by simp⟩
  · simp [getQuery, getInclude, applyPagination, applyOrder, applyInclude, applyAttributes,
      applyWhere, jsMergeVal, jsMergeFields, jsMergeElems, jsGetD, JVal.set, JVal.get?,
      setField, getField, getOrderBy, getOffset, JVal.truthy]
  · simp [getQuery, getInclude, applyPagination, applyOrder, applyInclude, applyAttributes,
      applyWhere, jsMergeVal, jsMergeFields, jsMergeElems, jsGetD, JVal.set, JVal.get?,
      setField, getField, getOrderBy, getOffset, JVal.truthy]

/-! ## Lemmas for the order and expand resolvers -/

lemma getOrderBy_length (models : List (String × JVal)) (tokens : List JVal) :
    (getOrderBy models tokens).length = (tokens.filter isStringTok).length := by
  induction tokens with
  | nil => rfl
  | cons v rest ih =>
    cases v with
    | str s =>
      by_cases h : s = ""
      · subst h
        simpa [getOrderBy, isStringTok, List.filter_cons, List.filterMap_cons] using ih
      · simpa [getOrderBy, isStringTok, List.filter_cons, List.filterMap_cons, h] using ih
    | null => simpa [getOrderBy, isStringTok, List.filter_cons, List.filterMap_cons] using ih
    | bool b => simpa [getOrderBy, isStringTok, List.filter_cons, List.filterMap_cons] using ih
    | num n => simpa [getOrderBy, isStringTok, List.filter_cons, List.filterMap_cons] using ih
    | arr l => simpa [getOrderBy, isStringTok, List.filter_cons, List.filterMap_cons] using ih
    | obj f => simpa [getOrderBy, isStringTok, List.filter_cons, List.filterMap_cons] using ih

lemma parseOrderTok_last (models : List (String × JVal)) (s : String) :
    ∃ l, parseOrderTok models s = .arr l
      ∧ l.getLast? = some (.str (if s.toList.take 1 == ['-'] then "DESC" else "ASC")) := by
  simp only [parseOrderTok]
  split
  · split
    · exact ⟨_, rfl, rfl⟩
    · exact ⟨_, rfl, rfl⟩
  · split
    · exact ⟨_, rfl, rfl⟩
    · exact ⟨_, rfl, rfl⟩

lemma jsGetD_truthy (v : JVal) (d : JVal) (h : v.truthy = true) : jsGetD (some v) d = v := by
  cases v with
  | null => simp [JVal.truthy] at h
  | bool b => rfl
  | num n => rfl
  | str s => rfl
  | arr l => rfl
  | obj f => rfl

/-- C8: the order resolver turns every non-empty string token into exactly
one term and never fails (the output has one term per kept token); each
term ends in the direction, DESC for a leading `-` and ASC otherwise;
`$pictures.age$` with `pictures` registered (to a truthy handle) yields
the qualified term carrying the handle aliased `pictures` with column
`age`; `$ghost.age$` with `ghost` absent falls back to the unqualified
`age` ASC term. -/
theorem C8_order_resolver (models : List (String × JVal)) (handle : JVal)
    (tokens : List JVal) :
    (getOrderBy models tokens).length = (tokens.filter isStringTok).length
    ∧ (∀ s : String, ∃ l, parseOrderTok models s = .arr l
        ∧ l.getLast? = some (.str (if s.toList.take 1 == ['-'] then "DESC" else "ASC")))
    ∧ parseOrderTok models "-age" = .arr [.str "age", .str "DESC"]
    ∧ parseOrderTok models "age" = .arr [.str "age", .str "ASC"]
    ∧ (getField models "pictures" = some handle → handle.truthy = true →
        parseOrderTok models "$pictures.age$"
          = .arr [.obj [("model", handle), ("as", .str "pictures")], .str "age", .str "ASC"])
    ∧ (getField models "ghost" = none →
        parseOrderTok models "$ghost.age$" = .arr [.str "age", .str "ASC"]) := by
  refine ⟨getOrderBy_length models tokens, parseOrderTok_last models, rfl, rfl, ?_, ?_⟩
  · intro h ht
    have e : parseOrderTok models "$pictures.age$"
        = JVal.arr (if true && ((getField models "pictures").getD JVal.null).truthy
           then JVal.obj [("model", (getField models "pictures").getD JVal.null),
                ("as", JVal.str "pictures")] :: [JVal.str "age", JVal.str "ASC"]
           else [JVal.str "age", JVal.str "ASC"]) := rfl
    rw [e, h]
    simp [ht]
  · intro h
    have e : parseOrderTok models "$ghost.age$"
        = JVal.arr (if true && ((getField models "ghost").getD JVal.null).truthy
           then JVal.obj [("model", (getField models "ghost").getD JVal.null),
                ("as", JVal.str "ghost")] :: [JVal.str "age", JVal.str "ASC"]
           else [JVal.str "age", JVal.str "ASC"]) := rfl
    rw [e, h]
    simp [JVal.truthy]

/-- Witness for C8: a concrete registry holding `pictures`. -/
theorem C8_order_resolver_witness :
    parseOrderTok [("pictures", .obj [("m", .num 1)])] "$pictures.age$"
      = .arr [.obj [("model", .obj [("m", .num 1)]), ("as", .str "pictures")],
          .str "age", .str "ASC"] :=
  (C8_order_resolver [("pictures", .obj [("m", .num 1)])] (.obj [("m", .num 1)])
    []).2.2.2.2.1 rfl rfl

/-- C9: the expand resolver copies `limit`/`required` into the include
descriptor exactly when they carry the right primitive type; an entry
whose `name` (and absent `modelName`) resolves nowhere in the registry is
dropped silently with no error; plain string entries pass through
verbatim; and on any well-shaped expand sequence the resolver succeeds
with an output that is exactly the in-order `filterMap` of the input
under the per-entry resolver — order-preserving and no longer than the
input. -/
theorem C9_expand_resolver (t : JVal → JVal) (models : List (String × JVal)) (handle : JVal) :
    (getField models "pictures" = some handle → handle.truthy = true →
      getField models "undefined" = none →
      expandToInclude t models
          (.obj [("name", .str "pictures"), ("limit", .num 5), ("required", .bool true)])
        = .ok (some (.obj [("model", handle), ("as", .str "pictures"),
            ("required", .bool true), ("limit", .num 5)])))
    ∧ (getField models "pictures" = some handle → handle.truthy = true →
      getField models "undefined" = none →
      expandToInclude t models
          (.obj [("name", .str "pictures"), ("limit", .str "5"), ("required", .num 1)])
        = .ok (some (.obj [("model", handle), ("as", .str "pictures")])))
    ∧ (getField models "ghost" = none → getField models "undefined" = none →
      expandToInclude t models (.obj [("name", .str "ghost")]) = .ok none)
    ∧ (∀ s, expandToInclude t models (.str s) = .ok (some (.str s)))
    ∧ (∀ es : List JVal, (∀ e ∈ es, goodExpand e = true) →
      ∃ l, getInclude t models es = .ok l
        ∧ l = es.filterMap (keptEntry t models) ∧ l.length ≤ es.length) := by
  refine ⟨?_, ?_, ?_, fun s => rfl, getInclude_ok_filterMap t models⟩
  · intro hp ht hu
    have e : expandToInclude t models
        (.obj [("name", .str "pictures"), ("limit", .num 5), ("required", .bool true)])
        = (if true && (optTruthy (getField models "pictures")
              || optTruthy (getField models "undefined"))
           then .ok (some (.obj [("model",
                  if optTruthy (getField models "undefined") = true
                  then jsGetD (getField models "undefined") JVal.null
                  else jsGetD (getField models "pictures") JVal.null),
                ("as", .str "pictures"), ("required", .bool true), ("limit", .num 5)]))
           else .ok none) := rfl
    rw [e, hp, hu]
    simp [optTruthy, ht, jsGetD_truthy handle JVal.null ht]
  · intro hp ht hu
    have e : expandToInclude t models
        (.obj [("name", .str "pictures"), ("limit", .str "5"), ("required", .num 1)])
        = (if true && (optTruthy (getField models "pictures")
              || optTruthy (getField models "undefined"))
           then .ok (some (.obj [("model",
                  if optTruthy (getField models "undefined") = true
                  then jsGetD (getField models "undefined") JVal.null
                  else jsGetD (getField models "pictures") JVal.null),
                ("as", .str "pictures")]))
           else .ok none) := rfl
    rw [e, hp, hu]
    simp [optTruthy, ht, jsGetD_truthy handle JVal.null ht]
  · intro hg hu
    have e : expandToInclude t models (.obj [("name", .str "ghost")])
        = (if true && (optTruthy (getField models "ghost")
              || optTruthy (getField models "undefined"))
           then .ok (some (.obj [("model",
                  if optTruthy (getField models "undefined") = true
                  then jsGetD (getField models "undefined") JVal.null
                  else jsGetD (getField models "ghost") JVal.null),
                ("as", .str "ghost")]))
           else .ok none) := rfl
    rw [e, hg, hu]
    simp [optTruthy]

/-- Witness for C9: a concrete registry holding `pictures` and a concrete
well-shaped expand list. -/
theorem C9_expand_resolver_witness :
    expandToInclude (fun v => v) [("pictures", .obj [("m", .num 1)])]
        (.obj [("name", .str "pictures"), ("limit", .num 5), ("required", .bool true)])
      = .ok (some (.obj [("model", .obj [("m", .num 1)]), ("as", .str "pictures"),
          ("required", .bool true), ("limit", .num 5)])) :=
  (C9_expand_resolver (fun v => v) [("pictures", .obj [("m", .num 1)])]
    (.obj [("m", .num 1)])).1 rfl rfl rfl
